import Mathlib

/-!
Shallow embedding of `src/python/w2dyn_cthyb/solver.py` (the w2dynamics
TRIQS interface solver).  Real scalars of the program are modelled as exact
rationals, numpy arrays as functions from index tuples (or as lists along
the axis a loop or slice acts on), and Python dictionaries as association
lists.  Abrupt process termination (`exit()`), catchable exceptions
(`assert`, `ZeroDivisionError`) and normal completion are distinguished by
explicit outcome constructors.
-/

namespace W2dynCthyb

/-! ### bs_diagflat (solver.py lines 666-678)

`bs_diagflat` doubles the first two axes of a band-by-spin array and fills
the result so that it is diagonal with respect to both pairs of axes.
The trailing axes (`...` in the source) are folded into the entry type. -/

/-- One iteration of the nested `for b ... for s ...` fill loop of
`bs_diagflat`: write `bs_array[b, s, ...]` at position `[b, s, b, s, ...]`
of the accumulator. -/
def diagStep {α : Type} (bs_array : ℕ → ℕ → α) (acc : ℕ → ℕ → ℕ → ℕ → α)
    (p : ℕ × ℕ) : ℕ → ℕ → ℕ → ℕ → α :=
  fun b1 s1 b2 s2 =>
    if b1 = p.1 ∧ s1 = p.2 ∧ b2 = p.1 ∧ s2 = p.2 then bs_array p.1 p.2
    else acc b1 s1 b2 s2

/-- The nested iteration domain of the fill loop: all `(b, s)` with
`b < nb` (axis 0) and `s < ns` (axis 1), in source loop order. -/
def bsPairs (nb ns : ℕ) : List (ℕ × ℕ) :=
  (List.range nb).flatMap fun b => (List.range ns).map fun s => (b, s)

/-- `bs_diagflat` from solver.py: start from `np.zeros` and place each
entry `bs_array[b, s, ...]` at `[b, s, b, s, ...]`.  `nb` and `ns` are the
sizes of the first two axes of the argument. -/
def bs_diagflat {α : Type} [Zero α] (nb ns : ℕ) (bs_array : ℕ → ℕ → α) :
    ℕ → ℕ → ℕ → ℕ → α :=
  (bsPairs nb ns).foldl (diagStep bs_array) (fun _ _ _ _ => 0)

/-- Re-collapse of the expanded array to its diagonal, reading the entries
at positions `[b, s, b, s, ...]`. -/
def bs_diagExtract {α : Type} (a : ℕ → ℕ → ℕ → ℕ → α) : ℕ → ℕ → α :=
  fun b s => a b s b s

lemma mem_bsPairs {nb ns b s : ℕ} :
    (b, s) ∈ bsPairs nb ns ↔ b < nb ∧ s < ns := by
  simp only [bsPairs, List.mem_flatMap, List.mem_map, List.mem_range]
  constructor
  · rintro ⟨b0, hb0, s0, hs0, heq⟩
    obtain ⟨rfl, rfl⟩ := Prod.mk.injEq .. ▸ heq
    exact ⟨hb0, hs0⟩
  · rintro ⟨hb, hs⟩
    exact ⟨b, hb, s, hs, rfl⟩

lemma foldl_diagStep_apply {α : Type} (bs_array : ℕ → ℕ → α)
    (l : List (ℕ × ℕ)) (g : ℕ → ℕ → ℕ → ℕ → α) (b1 s1 b2 s2 : ℕ) :
    (l.foldl (diagStep bs_array) g) b1 s1 b2 s2 =
      if b1 = b2 ∧ s1 = s2 ∧ (b1, s1) ∈ l then bs_array b1 s1
      else g b1 s1 b2 s2 := by
  induction l generalizing g with
  | nil => simp
  | cons p l ih =>
    rw [List.foldl_cons, ih]
    by_cases hmem : b1 = b2 ∧ s1 = s2 ∧ (b1, s1) ∈ l
    · rw [if_pos hmem,
        if_pos ⟨hmem.1, hmem.2.1, List.mem_cons_of_mem p hmem.2.2⟩]
    · rw [if_neg hmem]
      by_cases hp : b1 = p.1 ∧ s1 = p.2 ∧ b2 = p.1 ∧ s2 = p.2
      · obtain ⟨h1, h2, h3, h4⟩ := hp
        have hbs : b1 = b2 := h1.trans h3.symm
        have hss : s1 = s2 := h2.trans h4.symm
        have hin : (b1, s1) ∈ p :: l := by
          rw [List.mem_cons]; left; rw [h1, h2]
        rw [if_pos ⟨hbs, hss, hin⟩, diagStep, if_pos ⟨h1, h2, h3, h4⟩,
          h1, h2]
      · rw [diagStep]
        simp only [if_neg hp]
        rw [if_neg]
        intro hcon
        obtain ⟨e1, e2, e3⟩ := hcon
        rcases List.mem_cons.mp e3 with hhd | htl
        · apply hp
          have hb1 : b1 = p.1 := congrArg Prod.fst hhd
          have hs1 : s1 = p.2 := congrArg Prod.snd hhd
          exact ⟨hb1, hs1, e1 ▸ hb1, e2 ▸ hs1⟩
        · exact hmem ⟨e1, e2, htl⟩

/-- Pointwise description of `bs_diagflat`: the expanded array holds
`bs_array[b, s]` at in-range diagonal positions `[b, s, b, s]` and `0`
everywhere else. -/
lemma bs_diagflat_apply {α : Type} [Zero α] (nb ns : ℕ)
    (bs_array : ℕ → ℕ → α) (b1 s1 b2 s2 : ℕ) :
    bs_diagflat nb ns bs_array b1 s1 b2 s2 =
      if b1 = b2 ∧ s1 = s2 ∧ b1 < nb ∧ s1 < ns then bs_array b1 s1
      else 0 := by
  rw [bs_diagflat, foldl_diagStep_apply]
  by_cases h : b1 = b2 ∧ s1 = s2 ∧ (b1, s1) ∈ bsPairs nb ns
  · rw [if_pos h, if_pos ⟨h.1, h.2.1, mem_bsPairs.mp h.2.2⟩]
  · rw [if_neg h, if_neg]
    intro hcon
    exact h ⟨hcon.1, hcon.2.1, mem_bsPairs.mpr hcon.2.2⟩

/-- C6: the diagonal-fill expansion places each entry `[b, s, ...]` at
position `[b, s, b, s, ...]`, leaves every off-diagonal entry of the
expanded array exactly zero, and re-extracting the diagonal of the
expanded array returns the original array exactly. -/
theorem bs_diagflat_diag_offdiag_roundtrip {α : Type} [Zero α]
    (nb ns : ℕ) (bs_array : ℕ → ℕ → α) (b s b2 s2 : ℕ)
    (hb : b < nb) (hs : s < ns) :
    bs_diagflat nb ns bs_array b s b s = bs_array b s ∧
    (¬ (b = b2 ∧ s = s2) → bs_diagflat nb ns bs_array b s b2 s2 = 0) ∧
    bs_diagExtract (bs_diagflat nb ns bs_array) b s = bs_array b s := by
  refine ⟨?_, ?_, ?_⟩
  · rw [bs_diagflat_apply, if_pos ⟨rfl, rfl, hb, hs⟩]
  · intro hne
    rw [bs_diagflat_apply, if_neg]
    intro hcon
    exact hne ⟨hcon.1, hcon.2.1⟩
  · rw [bs_diagExtract, bs_diagflat_apply, if_pos ⟨rfl, rfl, hb, hs⟩]

/-- Example band-by-spin array for concrete witnesses. -/
def exBsArray : ℕ → ℕ → ℚ := fun b s => 10 * b + s + 1

/-- Witness for C6 at a concrete input: `nb = 2`, `ns = 2`, diagonal
position `(1, 0)` and off-diagonal partner `(0, 1)`. -/
theorem bs_diagflat_diag_offdiag_roundtrip_witness :
    bs_diagflat 2 2 exBsArray 1 0 1 0 = exBsArray 1 0 ∧
    bs_diagflat 2 2 exBsArray 1 0 0 1 = 0 ∧
    bs_diagExtract (bs_diagflat 2 2 exBsArray) 1 0 = exBsArray 1 0 :=
  ⟨(bs_diagflat_diag_offdiag_roundtrip 2 2 exBsArray 1 0 0 1 (by decide)
      (by decide)).1,
   (bs_diagflat_diag_offdiag_roundtrip 2 2 exBsArray 1 0 0 1 (by decide)
      (by decide)).2.1 (by decide),
   (bs_diagflat_diag_offdiag_roundtrip 2 2 exBsArray 1 0 0 1 (by decide)
      (by decide)).2.2⟩

/-! ### Hybridization hole-propagator flip (solver.py lines 165-167)

`for bl, Delta_bl in self.Delta_tau: Delta_bl.data[:] = -Delta_bl.data[::-1,...]`
Each block's data is a time series along axis 0; the trailing axes are
folded into the entry type, which only needs a negation. -/

/-- The in-place slice assignment for one block: the new data is the
reversal of the old data along the time axis, negated elementwise. -/
def deltaFlipBlock {α : Type} [Neg α] (d : List α) : List α :=
  d.reverse.map fun x => -x

/-- The loop over all blocks of `Delta_tau`, applying the flip to each
block's data. -/
def deltaFlipBlocks {α : Type} [Neg α] (blocks : List (List α)) :
    List (List α) :=
  blocks.map deltaFlipBlock

lemma deltaFlipBlock_length {α : Type} [Neg α] (d : List α) :
    (deltaFlipBlock d).length = d.length := by
  rw [deltaFlipBlock, List.length_map, List.length_reverse]

/-- C8: for every block and every time index `i` in a grid of `Ntau`
points, the transformed hybridization value at index `i` equals minus the
original value at index `Ntau - 1 - i`. -/
theorem deltaFlip_negated_time_reversed {α : Type} [Neg α]
    (blocks : List (List α)) (k i : ℕ) (d : List α)
    (hk : blocks[k]? = some d) (hi : i < d.length) :
    (deltaFlipBlocks blocks)[k]? = some (deltaFlipBlock d) ∧
    (deltaFlipBlock d)[i]? =
      (d[d.length - 1 - i]?).map fun x => -x := by
  constructor
  · rw [deltaFlipBlocks, List.getElem?_map, hk]; rfl
  · rw [deltaFlipBlock, List.getElem?_map, List.getElem?_reverse hi]

/-- Witness for C8: blocks `[[3, 7], [11]]` over `ℚ`, block 0, time
index 0 of a 2-point grid. -/
theorem deltaFlip_negated_time_reversed_witness :
    (deltaFlipBlocks [[(3 : ℚ), 7], [11]])[0]? =
      some (deltaFlipBlock [(3 : ℚ), 7]) ∧
    (deltaFlipBlock [(3 : ℚ), 7])[0]? =
      (([(3 : ℚ), 7])[([(3 : ℚ), 7].length - 1 - 0)]?).map fun x => -x :=
  deltaFlip_negated_time_reversed [[(3 : ℚ), 7], [11]] 0 0 [(3 : ℚ), 7]
    (by decide) (by decide)

/-! ### Interaction-tensor layout transform (solver.py lines 143-149)

```
self.norb = U_ijkl.shape[0]//2
U_ijkl = U_ijkl.reshape(2,self.norb, 2,self.norb, 2,self.norb, 2,self.norb)
U_ijkl = U_ijkl.transpose(1,0, 3,2, 5,4, 7,6)
U_ijkl = U_ijkl.reshape(self.norb*2, self.norb*2, self.norb*2, self.norb*2)
```
Splitting a flavor axis of size `2*norb` as `(2, norb)` reads a flavor
`f` as `f = s * norb + o` (spin slow, orbital fast); the transpose swaps
the two factors within each of the four operator positions, so the
rebuilt flavor is `g = o * 2 + s` (spin fastest).  The tensor is modelled
as a function of its four flavor indices. -/

/-- The composite reshape-transpose-reshape of the interaction tensor:
the entry at new flavor `g` (per position) is the old entry at flavor
`(g % 2) * norb + g / 2`.  No scalar factor is applied anywhere in this
transform. -/
def uTransform (norb : ℕ) (u : ℕ → ℕ → ℕ → ℕ → ℚ) : ℕ → ℕ → ℕ → ℕ → ℚ :=
  fun g1 g2 g3 g4 =>
    u (g1 % 2 * norb + g1 / 2) (g2 % 2 * norb + g2 / 2)
      (g3 % 2 * norb + g3 / 2) (g4 % 2 * norb + g4 / 2)

/-- Modelled from the spec: the claimed transform, which in addition to
the spin-fastest permutation applies a compensating factor of 2 and a
sign flip (reconciling the 1/2-prefactor convention and the
annihilator-ordering exchange).  This definition follows the spec's
words; it is compared against `uTransform`, which follows the source. -/
def uTransformSpec (norb : ℕ) (u : ℕ → ℕ → ℕ → ℕ → ℚ) :
    ℕ → ℕ → ℕ → ℕ → ℚ :=
  fun g1 g2 g3 g4 => -(2 * uTransform norb u g1 g2 g3 g4)

/-- Counterexample for C7: on the constant-one rank-4 tensor with one
orbital, the source transform returns `1` at index `(0,0,0,0)` while a
transform that also applied the factor of 2 and the sign flip would
return `-2`; the code applies no factor and no sign flip. -/
theorem uTransform_no_factor_counterexample :
    uTransform 1 (fun _ _ _ _ => (1 : ℚ)) 0 0 0 0 = 1 ∧
    uTransformSpec 1 (fun _ _ _ _ => (1 : ℚ)) 0 0 0 0 = -2 ∧
    uTransform 1 (fun _ _ _ _ => (1 : ℚ)) 0 0 0 0 ≠
      uTransformSpec 1 (fun _ _ _ _ => (1 : ℚ)) 0 0 0 0 := by
  norm_num [uTransform, uTransformSpec]

/-- C7 (amended): the interaction tensor is reshaped to rank 8 and
permuted so that spin is the fastest-varying index within each of the
four operator positions, then flattened back to rank 4: the entry at
spin-fastest flavors `2*o + s` equals the original entry at spin-major
flavors `s*norb + o`, with no scalar factor and no sign flip. -/
theorem uTransform_spin_fastest (norb : ℕ) (u : ℕ → ℕ → ℕ → ℕ → ℚ)
    (o1 s1 o2 s2 o3 s3 o4 s4 : ℕ)
    (h1 : s1 < 2) (h2 : s2 < 2) (h3 : s3 < 2) (h4 : s4 < 2) :
    uTransform norb u (2 * o1 + s1) (2 * o2 + s2) (2 * o3 + s3)
        (2 * o4 + s4) =
      u (s1 * norb + o1) (s2 * norb + o2) (s3 * norb + o3)
        (s4 * norb + o4) := by
  rw [uTransform]
  have e1 : (2 * o1 + s1) % 2 = s1 ∧ (2 * o1 + s1) / 2 = o1 := by omega
  have e2 : (2 * o2 + s2) % 2 = s2 ∧ (2 * o2 + s2) / 2 = o2 := by omega
  have e3 : (2 * o3 + s3) % 2 = s3 ∧ (2 * o3 + s3) / 2 = o3 := by omega
  have e4 : (2 * o4 + s4) % 2 = s4 ∧ (2 * o4 + s4) / 2 = o4 := by omega
  rw [e1.1, e1.2, e2.1, e2.2, e3.1, e3.2, e4.1, e4.2]

/-- Example rank-4 tensor over flavors, reading off its first flavor
index; used only for concrete witnesses. -/
def uexampleTensor : ℕ → ℕ → ℕ → ℕ → ℚ := fun f1 _ _ _ => f1

/-- Witness for the amended C7: two orbitals, the tensor reading off its
first flavor index, at orbital-spin indices `(1,1)`, `(0,0)`, `(0,1)`,
`(1,0)`. -/
theorem uTransform_spin_fastest_witness :
    uTransform 2 uexampleTensor (2 * 1 + 1) (2 * 0 + 0)
        (2 * 0 + 1) (2 * 1 + 0) =
      uexampleTensor (1 * 2 + 1) (0 * 2 + 0) (1 * 2 + 0) (0 * 2 + 1) :=
  uTransform_spin_fastest 2 uexampleTensor 1 1 0 0 0 1 1 0
    (by decide) (by decide) (by decide) (by decide)

/-! ### Worm move-probability defaulting (solver.py lines 278-286)

Inside `if worm:` the code replaces a supplied probability equal to `0.0`
by `0.2` and passes any other value through unchanged. -/

/-- The defaulting applied to `PercentageWormInsert` and
`PercentageWormReplace` inside the worm branch: a value of exactly `0.0`
becomes `0.2` (= 1/5), everything else is passed through. -/
def wormDefaultedProb (p : ℚ) : ℚ :=
  if p ≠ 0 then p else 1 / 5

/-- The engine configuration entries `PercentageWormInsert` and
`PercentageWormReplace` written by `solve`: only set inside the worm
branch, each via `wormDefaultedProb`. -/
def wormProbCfg (worm : Bool) (pIns pRep : ℚ) : Option (ℚ × ℚ) :=
  if worm then some (wormDefaultedProb pIns, wormDefaultedProb pRep)
  else none

/-- C10: in worm mode a supplied worm-insert or worm-replace probability
equal to exactly 0.0 is replaced by 0.2 before the configuration is
built, a nonzero value is passed through unchanged, and the configured
values are never zero (the moves cannot be disabled through these
parameters). -/
theorem wormProbCfg_zero_replaced (pIns pRep : ℚ) :
    wormProbCfg true pIns pRep =
      some (wormDefaultedProb pIns, wormDefaultedProb pRep) ∧
    (pIns = 0 → wormDefaultedProb pIns = 1 / 5) ∧
    (pIns ≠ 0 → wormDefaultedProb pIns = pIns) ∧
    (pRep = 0 → wormDefaultedProb pRep = 1 / 5) ∧
    (pRep ≠ 0 → wormDefaultedProb pRep = pRep) ∧
    wormDefaultedProb pIns ≠ 0 ∧ wormDefaultedProb pRep ≠ 0 := by
  refine ⟨rfl, ?_, ?_, ?_, ?_, ?_, ?_⟩
  · intro h; rw [wormDefaultedProb, h]; norm_num
  · intro h; rw [wormDefaultedProb, if_pos h]
  · intro h; rw [wormDefaultedProb, h]; norm_num
  · intro h; rw [wormDefaultedProb, if_pos h]
  · rw [wormDefaultedProb]
    by_cases h : pIns ≠ 0
    · rw [if_pos h]; exact h
    · rw [if_neg h]; norm_num
  · rw [wormDefaultedProb]
    by_cases h : pRep ≠ 0
    · rw [if_pos h]; exact h
    · rw [if_neg h]; norm_num

/-- Witness for C10 at `pIns = 0`, `pRep = 3/10`: the zero probability
is replaced by 1/5, the nonzero one is passed through, neither
configured value is zero. -/
theorem wormProbCfg_zero_replaced_witness :
    wormProbCfg true 0 (3 / 10) =
      some (wormDefaultedProb 0, wormDefaultedProb (3 / 10)) ∧
    wormDefaultedProb 0 = 1 / 5 ∧
    wormDefaultedProb (3 / 10) = 3 / 10 ∧
    wormDefaultedProb 0 ≠ 0 ∧ wormDefaultedProb (3 / 10) ≠ 0 :=
  ⟨(wormProbCfg_zero_replaced 0 (3 / 10)).1,
   (wormProbCfg_zero_replaced 0 (3 / 10)).2.1 rfl,
   (wormProbCfg_zero_replaced 0 (3 / 10)).2.2.2.2.1 (by norm_num),
   (wormProbCfg_zero_replaced 0 (3 / 10)).2.2.2.2.2.1,
   (wormProbCfg_zero_replaced 0 (3 / 10)).2.2.2.2.2.2⟩

/-! ### Solve-call control flow up to sector dispatch

The inputs of one `solve` call that the modelled control flow reads.
`uDim` is `U_ijkl.shape[0]` (the flavor dimension of the interaction
matrix, so `self.norb = uDim / 2`, line 146) and `tDim` is
`t_ij_matrix.shape[0]`.  `offdiag` is the result of the block-size scan
of `Delta_tau` (lines 204-215): true iff some block has size above 1.
`wormSectorIdx` stands for the externally computed
`worm_get_sector_index(cfg['QMC'])`.  `cfg_qmc` is the manual low-level
override mapping, as an association list. -/
structure SolveParams where
  complexFlag : Bool
  worm : Bool
  uDim : ℕ
  tDim : ℕ
  offdiag : Bool
  measure_G_tau : Bool
  measure_G_l : Bool
  measure_pert_order : Bool
  measure_g4iw_ph : Bool
  wormSectorIdx : ℕ
  cfg_qmc : List (String × ℤ)

/-- Modelled from the spec: engine-configuration options that `solve`
itself never writes (the four-operator toggle `FourPnt` and the reduced
two-particle worm toggles) keep the external configuration parser's
default of 0 unless the manual override mapping sets them; the parser
`config.get_cfg` is outside this repository. -/
def cfgOption (p : SolveParams) (key : String) : ℤ :=
  (p.cfg_qmc.lookup key).getD 0

/-- One measurement pipeline of the sector dispatch. -/
inductive Pipeline where
  | standardComplex
  | standard
  | twoOpWorm
  | fourOpWorm
  | reducedWorm
  | autoG2
  deriving DecidableEq

/-- The first-match branch selection of lines 360-605: only taken when
one of the standard measurement toggles is on, then complex mode, plain
mode, the two-operator worm sector, the four-operator worm sector and
the reduced two-particle worm sectors are tried in source order.  `none`
means the elif chain selects no pipeline. -/
def selectedSector (p : SolveParams) : Option Pipeline :=
  if p.measure_G_tau || p.measure_G_l || p.measure_pert_order then
    if p.complexFlag then some .standardComplex
    else if !p.worm then some .standard
    else if p.wormSectorIdx = 2 then some .twoOpWorm
    else if cfgOption p "FourPnt" = 8 then some .fourOpWorm
    else if cfgOption p "WormMeasP3iwPH" = 1 ∨
        cfgOption p "WormMeasP2iwPH" = 1 ∨
        cfgOption p "WormMeasP2tauPH" = 1 then some .reducedWorm
    else none
  else none

/-- The automatic two-particle block of lines 611-663 runs exactly when
`measure_G2_iw_ph` was requested and the manual override mapping is
empty (`len(manual_cfg_qmc) == 0`). -/
def autoG2Runs (p : SolveParams) : Bool :=
  p.measure_g4iw_ph && p.cfg_qmc.length == 0

/-- Outcome of the phase of `solve` before and including sector
dispatch.  `exitAbrupt` models `print(...); exit()` (process
termination, not a catchable exception), `assertFail` models a failed
`assert` (an AssertionError the caller can catch), and `finished` lists
the pipelines run, in order. -/
inductive SolveOutcome where
  | exitAbrupt (msg : String)
  | assertFail (msg : String)
  | finished (pipes : List Pipeline)
  deriving DecidableEq

/-- The solve-call control flow in source order: the orbital-count
consistency assertion (line 173), the complex+worm hard stop (lines
218-220), the complex-with-diagonal assertion (line 227), then sector
dispatch followed by the automatic two-particle block. -/
def solveModel (p : SolveParams) : SolveOutcome :=
  if p.tDim / 2 ≠ p.uDim / 2 then
    .assertFail "number of orbitals of U_ijkl and t_ij does not match"
  else if p.complexFlag && p.worm then
    .exitAbrupt "complex and worm together not yet implemented"
  else if p.complexFlag && !p.offdiag then
    .assertFail "Complex does not make sense for diagonal Delta_tau!"
  else
    .finished ((selectedSector p).toList ++
      (if autoG2Runs p then [.autoG2] else []))

/-- Whether the call reaches any engine construction or invocation: all
engine invocations happen inside the pipelines of a `finished` outcome,
after every check above. -/
def reachesEngine (p : SolveParams) : Bool :=
  match solveModel p with
  | .finished _ => true
  | _ => false

/-- C1: a solve call requesting complex mode and worm mode together
(whose tensors pass the earlier orbital-count consistency assertion)
emits the diagnostic message and terminates the process abruptly via
`exit()` — the `exitAbrupt` outcome, distinct from the catchable
`assertFail` outcomes — and never reaches an engine invocation. -/
theorem complex_worm_exits_before_engine (p : SolveParams)
    (hc : p.complexFlag = true) (hw : p.worm = true)
    (hdim : p.tDim / 2 = p.uDim / 2) :
    solveModel p =
      .exitAbrupt "complex and worm together not yet implemented" ∧
    reachesEngine p = false := by
  have hmodel : solveModel p =
      .exitAbrupt "complex and worm together not yet implemented" := by
    rw [solveModel, if_neg (by omega), if_pos (by rw [hc, hw]; rfl)]
  exact ⟨hmodel, by rw [reachesEngine, hmodel]⟩

/-- Witness for C1: a concrete complex+worm call with matching orbital
counts. -/
theorem complex_worm_exits_before_engine_witness :
    solveModel
        { complexFlag := true, worm := true, uDim := 4, tDim := 4,
          offdiag := true, measure_G_tau := true, measure_G_l := false,
          measure_pert_order := false, measure_g4iw_ph := false,
          wormSectorIdx := 2, cfg_qmc := [] } =
      .exitAbrupt "complex and worm together not yet implemented" ∧
    reachesEngine
        { complexFlag := true, worm := true, uDim := 4, tDim := 4,
          offdiag := true, measure_G_tau := true, measure_G_l := false,
          measure_pert_order := false, measure_g4iw_ph := false,
          wormSectorIdx := 2, cfg_qmc := [] } = false :=
  complex_worm_exits_before_engine _ rfl rfl rfl

/-- C4: when the orbital count `uDim / 2` derived from the interaction
tensor differs from the orbital count `tDim / 2` derived from the
one-particle hopping matrix, the call fails with the consistency
assertion before any engine invocation; when the two counts agree this
assertion never fires. -/
theorem orbital_count_consistency (p : SolveParams) :
    (p.tDim / 2 ≠ p.uDim / 2 →
      solveModel p =
        .assertFail "number of orbitals of U_ijkl and t_ij does not match" ∧
      reachesEngine p = false) ∧
    (p.tDim / 2 = p.uDim / 2 →
      solveModel p ≠
        .assertFail "number of orbitals of U_ijkl and t_ij does not match") := by
  constructor
  · intro hne
    have hmodel : solveModel p =
        .assertFail "number of orbitals of U_ijkl and t_ij does not match" := by
      rw [solveModel, if_pos hne]
    exact ⟨hmodel, by rw [reachesEngine, hmodel]⟩
  · intro heq
    rw [solveModel, if_neg (by omega)]
    by_cases h1 : p.complexFlag && p.worm
    · rw [if_pos h1]; intro hcon; cases hcon
    · rw [if_neg h1]
      by_cases h2 : p.complexFlag && !p.offdiag
      · rw [if_pos h2]
        intro hcon
        injection hcon with hmsg
        exact absurd hmsg (by decide)
      · rw [if_neg h2]; intro hcon; cases hcon

/-- Example solve parameters with mismatching orbital counts: the
interaction tensor implies 2 orbitals, the hopping matrix implies 3. -/
def exMismatchParams : SolveParams :=
  { complexFlag := false, worm := false, uDim := 4, tDim := 6,
    offdiag := false, measure_G_tau := true, measure_G_l := false,
    measure_pert_order := false, measure_g4iw_ph := false,
    wormSectorIdx := 0, cfg_qmc := [] }

/-- Witness for C4 at the concrete mismatching parameters: the
consistency assertion fires and the engine is never reached. -/
theorem orbital_count_consistency_witness :
    solveModel exMismatchParams =
      .assertFail "number of orbitals of U_ijkl and t_ij does not match" ∧
    reachesEngine exMismatchParams = false :=
  (orbital_count_consistency exMismatchParams).1 (by decide)

lemma selectedSector_ne_autoG2 (p : SolveParams) :
    selectedSector p ≠ some Pipeline.autoG2 := by
  rw [selectedSector]
  split_ifs <;> intro hcon <;> cases hcon

lemma selectedSector_fourOp_fourPnt (p : SolveParams)
    (h : selectedSector p = some Pipeline.fourOpWorm) :
    cfgOption p "FourPnt" = 8 := by
  rw [selectedSector] at h
  split_ifs at h with h1 h2 h3 h4 h5 h6
  all_goals first
    | assumption
    | cases h

/-- C9: when `measure_G2_iw_ph` is requested together with a non-empty
manual low-level override mapping, the automatic two-particle block is
bypassed entirely (the manual mapping wins), and in every solve call the
four-operator pipeline — whether entered through the worm-sector dispatch
or through the automatic block — runs at most once. -/
theorem manual_cfg_bypasses_autoG2 (p : SolveParams)
    (pipes : List Pipeline) (hfin : solveModel p = .finished pipes) :
    (p.cfg_qmc ≠ [] → Pipeline.autoG2 ∉ pipes) ∧
    pipes.count Pipeline.fourOpWorm + pipes.count Pipeline.autoG2 ≤ 1 := by
  rw [solveModel] at hfin
  split_ifs at hfin with h1 h2 h3 h4
  · -- the automatic two-particle block runs
    injection hfin with hp
    subst hp
    have hempty : p.cfg_qmc = [] := by
      rw [autoG2Runs, Bool.and_eq_true] at h4
      exact List.length_eq_zero.mp (by simpa using h4.2)
    constructor
    · intro hne _
      exact hne hempty
    · have hfp : cfgOption p "FourPnt" = 0 := by
        rw [cfgOption, hempty]; rfl
      have hno4 : selectedSector p ≠ some Pipeline.fourOpWorm := by
        intro hcon
        rw [selectedSector_fourOp_fourPnt p hcon] at hfp
        cases hfp
      cases ho : selectedSector p with
      | none => simp
      | some x =>
        have hx4 : x ≠ Pipeline.fourOpWorm := by
          intro hcon; exact hno4 (hcon ▸ ho)
        have hxa : x ≠ Pipeline.autoG2 := by
          intro hcon; exact selectedSector_ne_autoG2 p (hcon ▸ ho)
        simp [List.count_append, List.count_cons, List.count_nil,
          Option.toList, hx4, hxa]
  · -- the automatic two-particle block does not run
    injection hfin with hp
    subst hp
    constructor
    · intro _ hmem
      rw [List.append_nil] at hmem
      cases ho : selectedSector p with
      | none => rw [ho] at hmem; cases hmem
      | some x =>
        rw [ho] at hmem
        have hx : x = Pipeline.autoG2 := by
          cases hmem with
          | head => rfl
          | tail _ hmem2 => cases hmem2
        exact selectedSector_ne_autoG2 p (hx ▸ ho)
    · rw [List.append_nil]
      cases ho : selectedSector p with
      | none => simp
      | some x =>
        by_cases hx4 : x = Pipeline.fourOpWorm
        · subst hx4
          simp [List.count_cons, List.count_nil, Option.toList]
        · by_cases hxb : x = Pipeline.autoG2
          · subst hxb
            simp [List.count_cons, List.count_nil, Option.toList]
          · simp [List.count_cons, List.count_nil, Option.toList, hx4, hxb]

/-- Example solve parameters requesting `measure_G2_iw_ph` together with
a non-empty manual override mapping that drives the four-operator worm
sector. -/
def exManualParams : SolveParams :=
  { complexFlag := false, worm := true, uDim := 2, tDim := 2,
    offdiag := false, measure_G_tau := true, measure_G_l := false,
    measure_pert_order := false, measure_g4iw_ph := true,
    wormSectorIdx := 5, cfg_qmc := [("FourPnt", 8)] }

/-- Witness for C9: at the concrete parameters the dispatch runs exactly
the four-operator worm pipeline; the automatic block does not run and no
pipeline runs twice. -/
theorem manual_cfg_bypasses_autoG2_witness :
    Pipeline.autoG2 ∉ [Pipeline.fourOpWorm] ∧
    ([Pipeline.fourOpWorm].count Pipeline.fourOpWorm +
      [Pipeline.fourOpWorm].count Pipeline.autoG2 ≤ 1) :=
  ⟨(manual_cfg_bypasses_autoG2 exManualParams [Pipeline.fourOpWorm]
      (by decide)).1 (by decide),
   (manual_cfg_bypasses_autoG2 exManualParams [Pipeline.fourOpWorm]
      (by decide)).2⟩

/-! ### Two-operator worm sector (solver.py lines 375-439)

Component enumeration over compound indices `1 .. (2*norb)^2`, pruning of
components whose hybridization entry is numerically zero on the whole
time grid, budget apportionment over the retained components, one engine
invocation per retained component, and assembly of the per-component
results into a zero-initialized flavor-indexed array. -/

/-- Modelled from the spec: the external bijection
`index2component_general(norb, 2, ind)` between a compound index in
`[1, (2*norb)^2]` and an ordered pair of (band, spin) flavors — the
compound index minus one is decomposed in base `2*norb` with the first
operator position most significant, and each flavor `f` is split as
band `f / 2`, spin `f % 2` (spin fastest).  Returns
`(b1, s1, b2, s2)`. -/
def index2component2 (norb ind : ℕ) : ℕ × ℕ × ℕ × ℕ :=
  ((ind - 1) / (2 * norb) / 2, (ind - 1) / (2 * norb) % 2,
    (ind - 1) % (2 * norb) / 2, (ind - 1) % (2 * norb) % 2)

/-- The pruning test of lines 397-400:
`all_zeros = not np.any(np.abs(ftau[:, b1, s1, b2, s2]) > 1e-5)` with
`(b1, s1, b2, s2)` decoded from the compound index.  `ftau` is indexed
as `(time, band, spin, band, spin)`. -/
def componentHybZero (norb ntau : ℕ) (ftau : ℕ → ℕ → ℕ → ℕ → ℕ → ℚ)
    (ind : ℕ) : Bool :=
  !((List.range ntau).any fun i =>
    decide (1 / 100000 <
      |ftau i (index2component2 norb ind).1 (index2component2 norb ind).2.1
        (index2component2 norb ind).2.2.1 (index2component2 norb ind).2.2.2|))

/-- The retained components of lines 383-400: compound indices
`1 .. (2*norb)^2` in ascending order, keeping those whose hybridization
entry is not uniformly zero. -/
def twoOpComponents (norb ntau : ℕ) (ftau : ℕ → ℕ → ℕ → ℕ → ℕ → ℚ) :
    List ℕ :=
  (((List.range ((2 * norb) ^ 2)).map fun k => k + 1).filter
    fun ind => !(componentHybZero norb ntau ftau ind))

/-- State accumulated by the per-component loop of lines 411-437:
the engine invocations made so far (by component index, in order) and
the assembled `gtau` array, indexed as `(b1, s1, b2, s2, time)` (the
leading singleton axis of the source array is dropped). -/
structure TwoOpState where
  calls : List ℕ
  gtau : ℕ → ℕ → ℕ → ℕ → ℕ → ℚ

/-- One iteration of the component loop: invoke the engine for the
component (`solver.solve_component`) and write its time series into
`gtau[0, b1, s1, b2, s2, :]`.  `engine ind` stands for the per-process
result array `result.other[gtau_name]` of that invocation. -/
def twoOpStep (norb : ℕ) (engine : ℕ → ℕ → ℚ) (st : TwoOpState)
    (ind : ℕ) : TwoOpState :=
  { calls := st.calls ++ [ind],
    gtau := fun b1 s1 b2 s2 =>
      if (b1, s1, b2, s2) = index2component2 norb ind then engine ind
      else st.gtau b1 s1 b2 s2 }

/-- The component loop over a given component list, starting from the
`np.zeros`-initialized `gtau` of line 377. -/
def twoOpLoop (norb : ℕ) (engine : ℕ → ℕ → ℚ) (comps : List ℕ) :
    TwoOpState :=
  comps.foldl (twoOpStep norb engine) ⟨[], fun _ _ _ _ _ => 0⟩

/-- Result of the two-operator worm sector: the budget actually given to
each component (cycles and wall-clock seconds, lines 405-409) and the
loop outcome. -/
structure TwoOpResult where
  nmeasPerComponent : ℕ
  timePerComponent : ℤ
  run : TwoOpState

/-- The two-operator worm sector of lines 375-439.  The budget division
by `len(components)` raises `ZeroDivisionError` when every component was
pruned; that abort is modelled as `none`.  When `max_time <= 0` the
cycle count is divided across the components, otherwise the wall-clock
budget is (`int(...)` of an exact division, i.e. floor for the
nonnegative counts and positive times that occur here). -/
def twoOpSector (norb ntau nmeas : ℕ) (maxTime : ℤ)
    (ftau : ℕ → ℕ → ℕ → ℕ → ℕ → ℚ) (engine : ℕ → ℕ → ℚ) :
    Option TwoOpResult :=
  if (twoOpComponents norb ntau ftau).length = 0 then none
  else if maxTime ≤ 0 then
    some ⟨nmeas / (twoOpComponents norb ntau ftau).length, maxTime,
      twoOpLoop norb engine (twoOpComponents norb ntau ftau)⟩
  else
    some ⟨nmeas, maxTime / ((twoOpComponents norb ntau ftau).length : ℤ),
      twoOpLoop norb engine (twoOpComponents norb ntau ftau)⟩

lemma mem_twoOpComponents {norb ntau : ℕ}
    {ftau : ℕ → ℕ → ℕ → ℕ → ℕ → ℚ} {ind : ℕ} :
    ind ∈ twoOpComponents norb ntau ftau ↔
      1 ≤ ind ∧ ind ≤ (2 * norb) ^ 2 ∧
      ∃ i, i < ntau ∧ 1 / 100000 <
        |ftau i (index2component2 norb ind).1 (index2component2 norb ind).2.1
          (index2component2 norb ind).2.2.1
          (index2component2 norb ind).2.2.2| := by
  rw [twoOpComponents, List.mem_filter]
  simp only [List.mem_map, List.mem_range, componentHybZero,
    Bool.not_not, List.any_eq_true, decide_eq_true_eq]
  constructor
  · rintro ⟨⟨k, hk, rfl⟩, i, hi, hgt⟩
    exact ⟨by omega, by omega, i, hi, hgt⟩
  · rintro ⟨h1, h2, i, hi, hgt⟩
    exact ⟨⟨ind - 1, by omega, by omega⟩, i, hi, hgt⟩

lemma twoOpComponents_sorted (norb ntau : ℕ)
    (ftau : ℕ → ℕ → ℕ → ℕ → ℕ → ℚ) :
    List.Sorted (· < ·) (twoOpComponents norb ntau ftau) := by
  apply List.Pairwise.filter
  apply List.Pairwise.map (fun k => k + 1)
    (fun a b (h : a < b) => Nat.add_lt_add_right h 1)
  exact List.pairwise_lt_range _

lemma twoOpLoop_calls_aux (norb : ℕ) (engine : ℕ → ℕ → ℚ)
    (comps : List ℕ) (st : TwoOpState) :
    (comps.foldl (twoOpStep norb engine) st).calls =
      st.calls ++ comps := by
  induction comps generalizing st with
  | nil => simp
  | cons i l ih =>
    rw [List.foldl_cons, ih]
    simp [twoOpStep]

lemma twoOpLoop_gtau_aux (norb : ℕ) (engine : ℕ → ℕ → ℚ)
    (comps : List ℕ) (st : TwoOpState) (b1 s1 b2 s2 : ℕ)
    (h : ∀ ind ∈ comps, index2component2 norb ind ≠ (b1, s1, b2, s2)) :
    (comps.foldl (twoOpStep norb engine) st).gtau b1 s1 b2 s2 =
      st.gtau b1 s1 b2 s2 := by
  induction comps generalizing st with
  | nil => rfl
  | cons i l ih =>
    rw [List.foldl_cons,
      ih _ fun ind hmem => h ind (List.mem_cons_of_mem i hmem)]
    have hne : (b1, s1, b2, s2) ≠ index2component2 norb i :=
      fun hcon => h i (List.mem_cons_self i l) hcon.symm
    rw [twoOpStep]
    simp only [if_neg hne]

lemma index2component2_inj (norb a b : ℕ) (ha1 : 1 ≤ a) (hb1 : 1 ≤ b)
    (h : index2component2 norb a = index2component2 norb b) : a = b := by
  rw [index2component2, index2component2, Prod.mk.injEq, Prod.mk.injEq,
    Prod.mk.injEq] at h
  obtain ⟨h1, h2, h3, h4⟩ := h
  have hq : (a - 1) / (2 * norb) = (b - 1) / (2 * norb) := by omega
  have hr : (a - 1) % (2 * norb) = (b - 1) % (2 * norb) := by omega
  have ea : a - 1 =
      2 * norb * ((a - 1) / (2 * norb)) + (a - 1) % (2 * norb) :=
    (Nat.div_add_mod _ _).symm
  have eb : b - 1 =
      2 * norb * ((b - 1) / (2 * norb)) + (b - 1) % (2 * norb) :=
    (Nat.div_add_mod _ _).symm
  have : a - 1 = b - 1 := by rw [ea, eb, hq, hr]
  omega

/-- C2: in the two-operator worm sector, the retained components form an
ascending sublist of the compound indices `1 .. (2*norb)^2`; a compound
index is retained exactly when some point of the time grid has
hybridization magnitude above `1e-5` at its decoded flavors (so every
uniformly-small component is pruned); one engine invocation runs per
retained component, in order; and the assembled `gtau` array is exactly
zero at the decoded flavors of every component that was not sampled. -/
theorem twoOp_components_enumeration (norb ntau : ℕ)
    (ftau : ℕ → ℕ → ℕ → ℕ → ℕ → ℚ) (engine : ℕ → ℕ → ℚ) :
    List.Sorted (· < ·) (twoOpComponents norb ntau ftau) ∧
    (∀ ind, ind ∈ twoOpComponents norb ntau ftau ↔
      1 ≤ ind ∧ ind ≤ (2 * norb) ^ 2 ∧
      ∃ i, i < ntau ∧ 1 / 100000 <
        |ftau i (index2component2 norb ind).1
          (index2component2 norb ind).2.1
          (index2component2 norb ind).2.2.1
          (index2component2 norb ind).2.2.2|) ∧
    (twoOpLoop norb engine (twoOpComponents norb ntau ftau)).calls =
      twoOpComponents norb ntau ftau ∧
    (∀ ind, 1 ≤ ind → ind ≤ (2 * norb) ^ 2 →
      ind ∉ twoOpComponents norb ntau ftau →
      (twoOpLoop norb engine (twoOpComponents norb ntau ftau)).gtau
        (index2component2 norb ind).1 (index2component2 norb ind).2.1
        (index2component2 norb ind).2.2.1
        (index2component2 norb ind).2.2.2 = fun _ => (0 : ℚ)) := by
  refine ⟨twoOpComponents_sorted norb ntau ftau,
    fun ind => mem_twoOpComponents, ?_, ?_⟩
  · rw [twoOpLoop, twoOpLoop_calls_aux]
    rw [List.nil_append]
  · intro ind h1 h2 hnotmem
    rw [twoOpLoop, twoOpLoop_gtau_aux]
    intro ind2 hmem2 hcon
    have hrange2 := mem_twoOpComponents.mp hmem2
    have : ind2 = ind := by
      apply index2component2_inj norb ind2 ind hrange2.1 h1
      rw [hcon]
    exact hnotmem (this ▸ hmem2)

/-- Example hybridization array: nonzero only at flavors
`(b1, s1, b2, s2) = (0, 0, 0, 0)`, so with one orbital only compound
index 1 survives the pruning. -/
def exFtau : ℕ → ℕ → ℕ → ℕ → ℕ → ℚ :=
  fun _ b1 s1 b2 s2 => if b1 = 0 ∧ s1 = 0 ∧ b2 = 0 ∧ s2 = 0 then 1 else 0

/-- Example per-component engine results for witnesses. -/
def exEngine : ℕ → ℕ → ℚ := fun ind _ => ind

/-- Witness for C2: with one orbital, a 2-point grid and `exFtau`,
compound index 4 is pruned and the assembled array is exactly zero at
its decoded flavors. -/
theorem twoOp_components_enumeration_witness :
    (twoOpLoop 1 exEngine (twoOpComponents 1 2 exFtau)).gtau
      (index2component2 1 4).1 (index2component2 1 4).2.1
      (index2component2 1 4).2.2.1 (index2component2 1 4).2.2.2 =
      fun _ => (0 : ℚ) :=
  (twoOp_components_enumeration 1 2 exFtau exEngine).2.2.2 4
    (by norm_num) (by norm_num)
    (by
      intro hmem
      obtain ⟨-, -, i, -, hgt⟩ := mem_twoOpComponents.mp hmem
      norm_num [exFtau, index2component2] at hgt)

/-- C3: with `C > 0` retained components, no wall-clock budget
(`max_time <= 0`) gives each component `floor(T / C)` cycles so that the
total consumed `floor(T / C) * C` is at most `T`, and a wall-clock
budget `W > 0` gives each component `floor(W / C)` seconds. -/
theorem twoOp_budget_apportionment (norb ntau nmeas : ℕ) (maxTime : ℤ)
    (ftau : ℕ → ℕ → ℕ → ℕ → ℕ → ℚ) (engine : ℕ → ℕ → ℚ)
    (hC : twoOpComponents norb ntau ftau ≠ []) :
    (maxTime ≤ 0 →
      Option.map TwoOpResult.nmeasPerComponent
          (twoOpSector norb ntau nmeas maxTime ftau engine) =
        some (nmeas / (twoOpComponents norb ntau ftau).length) ∧
      nmeas / (twoOpComponents norb ntau ftau).length *
        (twoOpComponents norb ntau ftau).length ≤ nmeas) ∧
    (0 < maxTime →
      Option.map TwoOpResult.timePerComponent
          (twoOpSector norb ntau nmeas maxTime ftau engine) =
        some (maxTime / ((twoOpComponents norb ntau ftau).length : ℤ))) := by
  have hlen : (twoOpComponents norb ntau ftau).length ≠ 0 := by
    intro h0
    exact hC (List.length_eq_zero.mp h0)
  constructor
  · intro ht
    rw [twoOpSector, if_neg hlen, if_pos ht]
    exact ⟨rfl, Nat.div_mul_le_self nmeas _⟩
  · intro ht
    rw [twoOpSector, if_neg hlen, if_neg (by omega)]
    rfl

/-- Witness for C3: one retained component, `T = 100` cycles, no
wall-clock budget. -/
theorem twoOp_budget_apportionment_witness :
    Option.map TwoOpResult.nmeasPerComponent
        (twoOpSector 1 2 100 (-1) exFtau exEngine) =
      some (100 / (twoOpComponents 1 2 exFtau).length) ∧
    100 / (twoOpComponents 1 2 exFtau).length *
      (twoOpComponents 1 2 exFtau).length ≤ 100 :=
  (twoOp_budget_apportionment 1 2 100 (-1) exFtau exEngine
    (List.ne_nil_of_mem (mem_twoOpComponents.mpr
      ⟨le_refl 1, by norm_num, 0, by norm_num,
        by norm_num [exFtau, index2component2]⟩))).1 (by norm_num)

/-- All-zero hybridization: every two-operator component is pruned. -/
def zeroFtau : ℕ → ℕ → ℕ → ℕ → ℕ → ℚ := fun _ _ _ _ _ => 0

lemma twoOpComponents_zeroFtau (norb ntau : ℕ) :
    twoOpComponents norb ntau zeroFtau = [] := by
  rw [twoOpComponents, List.filter_eq_nil_iff]
  intro a _
  simp [componentHybZero, zeroFtau]

/-- Counterexample for C5: a concrete two-operator worm solve call in
which every enumerated component is pruned does not complete — the
budget apportionment divides the cycle count by the zero retained
component count, raising `ZeroDivisionError` (the `none` outcome),
contrary to the claim that the call completes without raising. -/
theorem twoOp_zero_components_counterexample :
    twoOpComponents 1 3 zeroFtau = [] ∧
    twoOpSector 1 3 100 (-1) zeroFtau exEngine = none := by
  refine ⟨twoOpComponents_zeroFtau 1 3, ?_⟩
  rw [twoOpSector, twoOpComponents_zeroFtau 1 3]
  simp

/-- C5 (amended): when every enumerated component of the two-operator
worm sector is pruned, the solve call does not complete: the budget
apportionment divides by the zero component count and the call aborts
with `ZeroDivisionError`. -/
theorem twoOp_all_pruned_aborts (norb ntau nmeas : ℕ) (maxTime : ℤ)
    (ftau : ℕ → ℕ → ℕ → ℕ → ℕ → ℚ) (engine : ℕ → ℕ → ℚ)
    (h : twoOpComponents norb ntau ftau = []) :
    twoOpSector norb ntau nmeas maxTime ftau engine = none := by
  rw [twoOpSector, h]
  simp

/-- Witness for the amended C5, on the positive-wall-clock branch. -/
theorem twoOp_all_pruned_aborts_witness :
    twoOpSector 2 1 5 7 zeroFtau exEngine = none :=
  twoOp_all_pruned_aborts 2 1 5 7 zeroFtau exEngine
    (twoOpComponents_zeroFtau 2 1)

end W2dynCthyb
